import Mathlib

/-!
Verification of the hanzi-flow adaptive selection and mastery-tracking core.

The definitions below are a shallow embedding of the TypeScript sources:
* `src/app/lib/mastery.ts` (mastery update, sentence progress, batch recording),
* `src/app/lib/characters.ts` (NSS: eligibility filter, scorer, fallback
  cascade, batch generation, queue manager),
* the NSS configuration module (`selection-config.ts`).

JavaScript numbers are modelled as exact rationals (`ℚ`), timestamps as `ℚ`
milliseconds, and the IndexedDB tables as lists keyed by their primary key.
`Math.log` is an injected parameter (no claim depends on its values), and the
Fisher-Yates shuffles are injected permutation oracles.
-/

namespace HanziFlow

/-! ### Constants from `src/app/lib/mastery.ts` -/

def ALPHA : ℚ := 2/10
def BETA : ℚ := 15/100
def GAMMA : ℚ := 2/10
def INITIAL_S : ℚ := 3/10
def INITIAL_STABILITY : ℚ := 1
def STABILITY_UP : ℚ := 14/10
def STABILITY_DOWN : ℚ := 7/10
def MIN_STABILITY : ℚ := 5/10
def MAX_STABILITY : ℚ := 60
def dayMs : ℚ := 86400000

/-- `clamp01 x = Math.max(0, Math.min(1, x))`. -/
def clamp01 (x : ℚ) : ℚ := max 0 (min 1 x)

/-- One row of the `words` table (`WordMastery` in `db.ts`).
`last_outcome` is `true` for `'correct'`, `false` for `'wrong'`. -/
structure WordMastery where
  char_id : ℕ
  s : ℚ
  stability_days : ℚ
  next_review_ts : ℚ
  last_seen_ts : ℚ
  n_attempts : ℕ
  n_correct : ℕ
  streak_correct : ℕ
  ewma_success : ℚ
  last_outcome : Bool
  introduced_ts : ℚ
deriving DecidableEq

/-- `initializeWord` from `mastery.ts`, with `Date.now()` passed explicitly. -/
def initializeWord (char_id : ℕ) (now : ℚ) : WordMastery :=
  { char_id := char_id
    s := INITIAL_S
    stability_days := INITIAL_STABILITY
    next_review_ts := now + INITIAL_STABILITY * dayMs
    last_seen_ts := now
    n_attempts := 0
    n_correct := 0
    streak_correct := 0
    ewma_success := INITIAL_S
    last_outcome := false
    introduced_ts := now }

/-- `updateMastery` from `mastery.ts`, with `Date.now()` passed explicitly. -/
def updateMastery (current : WordMastery) (correct : Bool) (now : ℚ) :
    WordMastery :=
  let e : ℚ := if correct then 1 else 0
  let newS := max 0 (min 1 (current.s + ALPHA * (e - current.s)))
  let unboundedStability :=
    if correct then current.stability_days * STABILITY_UP
    else current.stability_days * STABILITY_DOWN
  let newStability := max MIN_STABILITY (min MAX_STABILITY unboundedStability)
  let newStreak := if correct then current.streak_correct + 1 else 0
  let newEwmaSuccess :=
    if current.n_attempts = 0 then e
    else max 0 (min 1 (current.ewma_success + BETA * (e - current.ewma_success)))
  { current with
    s := newS
    stability_days := newStability
    next_review_ts := now + newStability * dayMs
    last_seen_ts := now
    n_attempts := current.n_attempts + 1
    n_correct := current.n_correct + (if correct then 1 else 0)
    streak_correct := newStreak
    ewma_success := newEwmaSuccess
    last_outcome := correct }

/-- One row of the `sentences` table (`SentenceProgress` in `db.ts`).
`last_outcome` is `true` for `'pass'`, `false` for `'fail'`. -/
structure SentenceProgress where
  sid : ℕ
  introduced_ts : ℚ
  last_seen_ts : ℚ
  seen_count : ℕ
  pass_count : ℕ
  cumulative_score : ℚ
  ewma_pass : ℚ
  last_outcome : Bool
deriving DecidableEq

/-- The fresh record created by `recordSentenceProgress` for a sentence that
has never been seen. -/
def initialSentenceProgress (sid : ℕ) (now : ℚ) : SentenceProgress :=
  { sid := sid
    introduced_ts := now
    last_seen_ts := now
    seen_count := 0
    pass_count := 0
    cumulative_score := 0
    ewma_pass := 3/10
    last_outcome := false }

/-- The pure update performed by `recordSentenceProgress` in `mastery.ts`:
fetch-or-create followed by the EWMA/counter update that is written back. -/
def recordSentenceProgressUpdate (existing : Option SentenceProgress)
    (sid : ℕ) (score : ℚ) (now : ℚ) : SentenceProgress :=
  let sentence := existing.getD (initialSentenceProgress sid now)
  let e := score
  let newEwmaPass :=
    if sentence.seen_count = 0 then e
    else max 0 (min 1 (sentence.ewma_pass + GAMMA * (e - sentence.ewma_pass)))
  let passed := score ≥ 1
  { sentence with
    last_seen_ts := now
    seen_count := sentence.seen_count + 1
    pass_count := sentence.pass_count + (if passed then 1 else 0)
    cumulative_score := sentence.cumulative_score + score
    ewma_pass := newEwmaPass
    last_outcome := passed }

/-! Projection lemmas for `updateMastery`. -/

theorem updateMastery_s (current : WordMastery) (correct : Bool) (now : ℚ) :
    (updateMastery current correct now).s
      = max 0 (min 1 (current.s + ALPHA * ((if correct then 1 else 0) - current.s))) := rfl

theorem updateMastery_stability (current : WordMastery) (correct : Bool) (now : ℚ) :
    (updateMastery current correct now).stability_days
      = max MIN_STABILITY (min MAX_STABILITY
          (if correct then current.stability_days * STABILITY_UP
           else current.stability_days * STABILITY_DOWN)) := rfl

theorem updateMastery_next_review (current : WordMastery) (correct : Bool) (now : ℚ) :
    (updateMastery current correct now).next_review_ts
      = now + (updateMastery current correct now).stability_days * dayMs := rfl

theorem updateMastery_last_seen (current : WordMastery) (correct : Bool) (now : ℚ) :
    (updateMastery current correct now).last_seen_ts = now := rfl

theorem updateMastery_ewma (current : WordMastery) (correct : Bool) (now : ℚ) :
    (updateMastery current correct now).ewma_success
      = if current.n_attempts = 0 then (if correct then 1 else 0)
        else max 0 (min 1 (current.ewma_success
              + BETA * ((if correct then 1 else 0) - current.ewma_success))) := rfl

theorem updateMastery_char_id (current : WordMastery) (correct : Bool) (now : ℚ) :
    (updateMastery current correct now).char_id = current.char_id := rfl

/-- C1: `updateMastery` computes `s' = clamp01(s + α·(e − s))` with `e = 1`
iff correct, `stability' = clamp(stability · (UP if correct else DOWN),
MIN_STAB, MAX_STAB)`, `next_review_ts' = now + stability'·day_ms`,
`last_seen_ts' = now`, increments `n_attempts`, increments `n_correct` iff
correct, and resets or extends the streak; on a fresh record a correct
attempt gives `s' = 0.44`, a wrong attempt gives `s' = 0.24` and
`stability' = 0.7`. -/
theorem updateMastery_formula (current : WordMastery) (correct : Bool)
    (now : ℚ) (cid : ℕ) (t₀ t₁ : ℚ) :
    (updateMastery current correct now).s
        = clamp01 (current.s + ALPHA * ((if correct then 1 else 0) - current.s))
    ∧ (updateMastery current correct now).stability_days
        = max MIN_STABILITY (min MAX_STABILITY
            (current.stability_days * (if correct then STABILITY_UP else STABILITY_DOWN)))
    ∧ (updateMastery current correct now).next_review_ts
        = now + (updateMastery current correct now).stability_days * dayMs
    ∧ (updateMastery current correct now).last_seen_ts = now
    ∧ (updateMastery current correct now).n_attempts = current.n_attempts + 1
    ∧ (updateMastery current correct now).n_correct
        = current.n_correct + (if correct then 1 else 0)
    ∧ (updateMastery current correct now).streak_correct
        = (if correct then current.streak_correct + 1 else 0)
    ∧ (updateMastery (initializeWord cid t₀) true t₁).s = 44/100
    ∧ (updateMastery (initializeWord cid t₀) false t₁).s = 24/100
    ∧ (updateMastery (initializeWord cid t₀) false t₁).stability_days = 7/10 := by
  refine ⟨?_, ?_, rfl, rfl, rfl, rfl, rfl, ?_, ?_, ?_⟩
  · rw [updateMastery_s]; rfl
  · rw [updateMastery_stability]; cases correct <;> rfl
  · rw [updateMastery_s]
    simp [initializeWord, INITIAL_S, ALPHA]
    norm_num
  · rw [updateMastery_s]
    simp [initializeWord, INITIAL_S, ALPHA]
    norm_num
  · rw [updateMastery_stability]
    simp [initializeWord, INITIAL_STABILITY, STABILITY_DOWN, MIN_STABILITY, MAX_STABILITY]
    norm_num

/-- C9: on the first attempt (`n_attempts = 0`) `updateMastery` sets
`ewma_success` directly to the outcome `e` with no smoothing blend, and on
every later attempt it sets it to `clamp01(ewma + β·(e − ewma))`. -/
theorem updateMastery_ewma_rule (current : WordMastery) (correct : Bool) (now : ℚ) :
    (updateMastery current correct now).ewma_success
      = if current.n_attempts = 0 then (if correct then 1 else 0)
        else clamp01 (current.ewma_success
              + BETA * ((if correct then 1 else 0) - current.ewma_success)) :=
  updateMastery_ewma current correct now

/-! Bounds for clamped quantities. -/

theorem clamp01_nonneg (x : ℚ) : 0 ≤ clamp01 x := le_max_left 0 _

theorem clamp01_le_one (x : ℚ) : clamp01 x ≤ 1 :=
  max_le zero_le_one (min_le_left 1 x)

theorem clampStab_lower (x : ℚ) :
    MIN_STABILITY ≤ max MIN_STABILITY (min MAX_STABILITY x) := le_max_left _ _

theorem clampStab_upper (x : ℚ) :
    max MIN_STABILITY (min MAX_STABILITY x) ≤ MAX_STABILITY := by
  refine max_le ?_ (min_le_left _ _)
  norm_num [MIN_STABILITY, MAX_STABILITY]

/-- The record invariant the spec demands of every `ItemMastery` row. -/
def masteryInvariant (w : WordMastery) : Prop :=
  0 ≤ w.s ∧ w.s ≤ 1
  ∧ 0 ≤ w.ewma_success ∧ w.ewma_success ≤ 1
  ∧ MIN_STABILITY ≤ w.stability_days ∧ w.stability_days ≤ MAX_STABILITY
  ∧ w.next_review_ts = w.last_seen_ts + w.stability_days * dayMs

/-- C6: every `updateMastery` result satisfies the record invariants
(`s ∈ [0,1]`, `ewma_success ∈ [0,1]`, `stability_days` within its bounds,
`next_review_ts = last_seen_ts + stability_days·day_ms`), and every
`recordSentenceProgress` update keeps `ewma_pass ∈ [0,1]` for a score in
`[0,1]`. -/
theorem update_preserves_invariants (current : WordMastery) (correct : Bool)
    (now : ℚ) (existing : Option SentenceProgress) (sid : ℕ) (score : ℚ)
    (hs0 : 0 ≤ score) (hs1 : score ≤ 1) :
    masteryInvariant (updateMastery current correct now)
    ∧ 0 ≤ (recordSentenceProgressUpdate existing sid score now).ewma_pass
    ∧ (recordSentenceProgressUpdate existing sid score now).ewma_pass ≤ 1 := by
  refine ⟨⟨?_, ?_, ?_, ?_, ?_, ?_, ?_⟩, ?_, ?_⟩
  · rw [updateMastery_s]; exact clamp01_nonneg _
  · rw [updateMastery_s]; exact clamp01_le_one _
  · rw [updateMastery_ewma]
    split
    · cases correct <;> norm_num
    · exact clamp01_nonneg _
  · rw [updateMastery_ewma]
    split
    · cases correct <;> norm_num
    · exact clamp01_le_one _
  · rw [updateMastery_stability]; exact clampStab_lower _
  · rw [updateMastery_stability]; exact clampStab_upper _
  · rw [updateMastery_next_review, updateMastery_last_seen]
  · show 0 ≤ (if (existing.getD (initialSentenceProgress sid now)).seen_count = 0
        then score
        else max 0 (min 1 _))
    split
    · exact hs0
    · exact le_max_left 0 _
  · show (if (existing.getD (initialSentenceProgress sid now)).seen_count = 0
        then score
        else max 0 (min 1 ((existing.getD (initialSentenceProgress sid now)).ewma_pass
            + GAMMA * (score - (existing.getD (initialSentenceProgress sid now)).ewma_pass)))) ≤ 1
    split
    · exact hs1
    · exact max_le zero_le_one (min_le_left 1 _)

/-- Witness for `update_preserves_invariants` at a concrete record and score. -/
theorem update_preserves_invariants_witness :
    (0:ℚ) ≤ 1/2 ∧ (1:ℚ)/2 ≤ 1
    ∧ (masteryInvariant (updateMastery (initializeWord 1 0) true 0)
       ∧ 0 ≤ (recordSentenceProgressUpdate none 2 (1/2) 0).ewma_pass
       ∧ (recordSentenceProgressUpdate none 2 (1/2) 0).ewma_pass ≤ 1) :=
  ⟨by norm_num, by norm_num,
   update_preserves_invariants (initializeWord 1 0) true 0 none 2 (1/2)
     (by norm_num) (by norm_num)⟩

/-! ### `recordSentenceAttempt`: grouping with logical AND (`mastery.ts`)

The JS `Map<number, boolean>` is modelled as an association list in insertion
order; `Map.set` updates the first (unique) occurrence in place or appends. -/

/-- `Map.set` on an association list: replace the entry for `k` in place, or
append a fresh one. -/
def mapSet : List (ℕ × Bool) → ℕ → Bool → List (ℕ × Bool)
  | [], k, v => [(k, v)]
  | p :: rest, k, v =>
      if p.1 = k then (k, v) :: rest else p :: mapSet rest k v

/-- One iteration of the grouping loop in `recordSentenceAttempt`: a fresh
`char_id` is inserted with its outcome, a repeated one is collapsed with
logical AND (`existing && correct`). -/
def collapseStep (m : List (ℕ × Bool)) (a : ℕ × Bool) : List (ℕ × Bool) :=
  match m.lookup a.1 with
  | none => mapSet m a.1 a.2
  | some b => mapSet m a.1 (b && a.2)

/-- The `uniqueAttempts` map built by `recordSentenceAttempt`. -/
def collapseAttempts (attempts : List (ℕ × Bool)) : List (ℕ × Bool) :=
  attempts.foldl collapseStep []

/-- `true` iff every attempt on `cid` in the list was correct. -/
def allCorrect (attempts : List (ℕ × Bool)) (cid : ℕ) : Bool :=
  (attempts.filter (fun a => a.1 == cid)).all (fun a => a.2)

theorem allCorrect_cons (a : ℕ × Bool) (attempts : List (ℕ × Bool)) (cid : ℕ) :
    allCorrect (a :: attempts) cid
      = if a.1 = cid then a.2 && allCorrect attempts cid
        else allCorrect attempts cid := by
  by_cases h : a.1 = cid <;> simp [allCorrect, h]

theorem lookup_mapSet_self (m : List (ℕ × Bool)) (k : ℕ) (v : Bool) :
    (mapSet m k v).lookup k = some v := by
  induction m with
  | nil => simp [mapSet, List.lookup]
  | cons p rest ih =>
    by_cases h : p.1 = k
    · simp [mapSet, h, List.lookup]
    · have h' : (k == p.1) = false := by simpa using fun hk => h hk.symm
      simp [mapSet, h, List.lookup, h', ih]

theorem lookup_mapSet_ne (m : List (ℕ × Bool)) (k k' : ℕ) (v : Bool)
    (h : k' ≠ k) : (mapSet m k v).lookup k' = m.lookup k' := by
  have h' : (k' == k) = false := by simpa using h
  induction m with
  | nil => simp [mapSet, List.lookup, h']
  | cons p rest ih =>
    obtain ⟨a, b⟩ := p
    by_cases hp : a = k
    · subst hp
      have heq : mapSet ((a, b) :: rest) a v = (a, v) :: rest := by
        simp [mapSet]
      rw [heq]
      simp [List.lookup, h']
    · have heq : mapSet ((a, b) :: rest) k v = (a, b) :: mapSet rest k v := by
        simp [mapSet, hp]
      rw [heq]
      simp [List.lookup, ih]

theorem mem_keys_mapSet (m : List (ℕ × Bool)) (k k' : ℕ) (v : Bool) :
    k' ∈ (mapSet m k v).map Prod.fst ↔ k' = k ∨ k' ∈ m.map Prod.fst := by
  induction m with
  | nil => simp [mapSet]
  | cons p rest ih =>
    by_cases hp : p.1 = k
    · subst hp
      have heq : mapSet (p :: rest) p.1 v = (p.1, v) :: rest := by
        simp [mapSet]
      rw [heq]
      simp only [List.map_cons, List.mem_cons]
      tauto
    · have heq : mapSet (p :: rest) k v = p :: mapSet rest k v := by
        simp [mapSet, hp]
      rw [heq]
      simp only [List.map_cons, List.mem_cons, ih]
      tauto

theorem nodup_keys_mapSet (m : List (ℕ × Bool)) (k : ℕ) (v : Bool)
    (h : (m.map Prod.fst).Nodup) : ((mapSet m k v).map Prod.fst).Nodup := by
  induction m with
  | nil => simp [mapSet]
  | cons p rest ih =>
    simp only [List.map_cons, List.nodup_cons] at h
    by_cases hp : p.1 = k
    · subst hp
      have heq : mapSet (p :: rest) p.1 v = (p.1, v) :: rest := by
        simp [mapSet]
      rw [heq]
      simp only [List.map_cons, List.nodup_cons]
      exact h
    · have heq : mapSet (p :: rest) k v = p :: mapSet rest k v := by
        simp [mapSet, hp]
      rw [heq]
      simp only [List.map_cons, List.nodup_cons]
      refine ⟨?_, ih h.2⟩
      intro hc
      rcases (mem_keys_mapSet rest k p.1 v).1 hc with h1 | h1
      · exact hp h1
      · exact h.1 h1

theorem nodup_keys_collapseStep (m : List (ℕ × Bool)) (a : ℕ × Bool)
    (h : (m.map Prod.fst).Nodup) : ((collapseStep m a).map Prod.fst).Nodup := by
  unfold collapseStep
  cases m.lookup a.1 <;> exact nodup_keys_mapSet _ _ _ h

theorem nodup_keys_collapseAttempts (attempts : List (ℕ × Bool)) :
    ((collapseAttempts attempts).map Prod.fst).Nodup := by
  have main : ∀ (l m : List (ℕ × Bool)), (m.map Prod.fst).Nodup →
      ((l.foldl collapseStep m).map Prod.fst).Nodup := by
    intro l
    induction l with
    | nil => intro m hm; exact hm
    | cons a t ih =>
      intro m hm
      exact ih _ (nodup_keys_collapseStep m a hm)
  exact main attempts [] (by simp)

theorem lookup_foldl_collapseStep (l : List (ℕ × Bool)) (m : List (ℕ × Bool))
    (cid : ℕ) :
    (l.foldl collapseStep m).lookup cid
      = match m.lookup cid with
        | some b => some (b && allCorrect l cid)
        | none =>
          if cid ∈ l.map Prod.fst then some (allCorrect l cid) else none := by
  induction l generalizing m with
  | nil =>
    cases h : m.lookup cid <;> simp [allCorrect, h]
  | cons a t ih =>
    rw [List.foldl_cons, ih]
    by_cases hk : a.1 = cid
    · subst hk
      cases h : m.lookup a.1 with
      | none =>
        have hstep : (collapseStep m a).lookup a.1 = some a.2 := by
          unfold collapseStep
          rw [h]
          exact lookup_mapSet_self m a.1 a.2
        rw [hstep]
        simp [allCorrect_cons]
      | some b =>
        have hstep : (collapseStep m a).lookup a.1 = some (b && a.2) := by
          unfold collapseStep
          rw [h]
          exact lookup_mapSet_self m a.1 _
        rw [hstep]
        simp [allCorrect_cons, Bool.and_assoc]
    · have hstep : (collapseStep m a).lookup cid = m.lookup cid := by
        unfold collapseStep
        cases m.lookup a.1 <;>
          exact lookup_mapSet_ne _ _ _ _ (fun hc => hk hc.symm)
      have hac : allCorrect (a :: t) cid = allCorrect t cid := by
        rw [allCorrect_cons, if_neg hk]
      have hmem : (cid ∈ List.map Prod.fst (a :: t))
          = (cid ∈ List.map Prod.fst t) := by
        simp only [List.map_cons, List.mem_cons]
        exact propext (or_iff_right (fun hc => hk hc.symm))
      rw [hstep, hac]
      simp only [hmem]

theorem lookup_collapseAttempts (attempts : List (ℕ × Bool)) (cid : ℕ) :
    (collapseAttempts attempts).lookup cid
      = if cid ∈ attempts.map Prod.fst then some (allCorrect attempts cid)
        else none := by
  have h := lookup_foldl_collapseStep attempts [] cid
  simpa [collapseAttempts, List.lookup] using h

theorem lookup_eq_some_mem {l : List (ℕ × Bool)} {k : ℕ} {v : Bool}
    (h : l.lookup k = some v) : (k, v) ∈ l := by
  induction l with
  | nil => simp [List.lookup] at h
  | cons p t ih =>
    obtain ⟨a, b⟩ := p
    by_cases hk : k = a
    · subst hk
      simp [List.lookup] at h
      subst h
      exact List.mem_cons_self _ _
    · have h' : (k == a) = false := by simpa using hk
      simp [List.lookup, h'] at h
      exact List.mem_cons_of_mem _ (ih h)

theorem mem_keys_lookup_isSome {l : List (ℕ × Bool)} {k : ℕ}
    (h : k ∈ l.map Prod.fst) : ∃ v, l.lookup k = some v := by
  induction l with
  | nil => simp at h
  | cons p t ih =>
    obtain ⟨a, b⟩ := p
    by_cases hk : k = a
    · subst hk
      exact ⟨b, by simp [List.lookup]⟩
    · have h' : (k == a) = false := by simpa using hk
      simp only [List.map_cons, List.mem_cons] at h
      rcases h with h | h
      · exact absurd h hk
      · obtain ⟨v, hv⟩ := ih h
        exact ⟨v, by simp [List.lookup, h', hv]⟩

/-! ### The `words` table, modelled as a list keyed by `char_id`. -/

/-- `db.words.get(cid)`. -/
def getWord (db : List WordMastery) (cid : ℕ) : Option WordMastery :=
  db.find? (fun w => w.char_id == cid)

/-- `db.words.put(w)`: upsert by the primary key `char_id`. -/
def putWord (db : List WordMastery) (w : WordMastery) : List WordMastery :=
  if db.any (fun x => x.char_id == w.char_id) then
    db.map (fun x => if x.char_id = w.char_id then w else x)
  else db ++ [w]

theorem find?_cons_true {p : WordMastery → Bool} {x : WordMastery}
    (l : List WordMastery) (h : p x = true) : (x :: l).find? p = some x := by
  simp [List.find?, h]

theorem find?_cons_false {p : WordMastery → Bool} {x : WordMastery}
    (l : List WordMastery) (h : p x = false) : (x :: l).find? p = l.find? p := by
  simp [List.find?, h]

theorem find?_map_replace (db : List WordMastery) (w : WordMastery)
    (h : db.any (fun x => x.char_id == w.char_id) = true) :
    (db.map (fun x => if x.char_id = w.char_id then w else x)).find?
        (fun x => x.char_id == w.char_id) = some w := by
  induction db with
  | nil => simp at h
  | cons x t ih =>
    by_cases hx : x.char_id = w.char_id
    · rw [List.map_cons, if_pos hx]
      exact find?_cons_true _ (by simp)
    · simp only [List.any_cons, Bool.or_eq_true, beq_iff_eq] at h
      rcases h with h | h
      · exact absurd h hx
      · have hx' : (x.char_id == w.char_id) = false := by simpa using hx
        rw [List.map_cons, if_neg hx, find?_cons_false _ hx']
        exact ih h

theorem find?_append_single (db : List WordMastery) (w : WordMastery)
    (h : db.any (fun x => x.char_id == w.char_id) = false) :
    (db ++ [w]).find? (fun x => x.char_id == w.char_id) = some w := by
  induction db with
  | nil => simp [List.find?]
  | cons x t ih =>
    simp only [List.any_cons, Bool.or_eq_false_iff] at h
    rw [List.cons_append, find?_cons_false _ h.1]
    exact ih h.2

theorem getWord_putWord_self (db : List WordMastery) (w : WordMastery) :
    getWord (putWord db w) w.char_id = some w := by
  unfold putWord getWord
  split
  case isTrue h => exact find?_map_replace db w h
  case isFalse h => exact find?_append_single db w (by simpa using h)

theorem find?_map_replace_ne (db : List WordMastery) (w : WordMastery)
    (cid : ℕ) (h : cid ≠ w.char_id) :
    (db.map (fun x => if x.char_id = w.char_id then w else x)).find?
        (fun x => x.char_id == cid)
      = db.find? (fun x => x.char_id == cid) := by
  induction db with
  | nil => rfl
  | cons x t ih =>
    by_cases hx : x.char_id = w.char_id
    · have hw : (w.char_id == cid) = false := by
        simpa using fun hc => h hc.symm
      have hxc : (x.char_id == cid) = false := by rw [hx]; exact hw
      rw [List.map_cons, if_pos hx, find?_cons_false _ hw,
        find?_cons_false _ hxc, ih]
    · rw [List.map_cons, if_neg hx]
      cases hpx : (x.char_id == cid) with
      | true => rw [find?_cons_true _ hpx, find?_cons_true _ hpx]
      | false => rw [find?_cons_false _ hpx, find?_cons_false _ hpx, ih]

theorem find?_append_single_ne (db : List WordMastery) (w : WordMastery)
    (cid : ℕ) (h : cid ≠ w.char_id) :
    (db ++ [w]).find? (fun x => x.char_id == cid)
      = db.find? (fun x => x.char_id == cid) := by
  induction db with
  | nil =>
    have hw : (w.char_id == cid) = false := by
      simpa using fun hc => h hc.symm
    simp [List.find?, hw]
  | cons x t ih =>
    cases hpx : (x.char_id == cid) with
    | true => rw [List.cons_append, find?_cons_true _ hpx, find?_cons_true _ hpx]
    | false =>
      rw [List.cons_append, find?_cons_false _ hpx, find?_cons_false _ hpx, ih]

theorem getWord_putWord_ne (db : List WordMastery) (w : WordMastery) (cid : ℕ)
    (h : cid ≠ w.char_id) : getWord (putWord db w) cid = getWord db cid := by
  unfold putWord getWord
  split
  · exact find?_map_replace_ne db w cid h
  · exact find?_append_single_ne db w cid h

theorem getWord_char_id {db : List WordMastery} {cid : ℕ} {w : WordMastery}
    (h : getWord db cid = some w) : w.char_id = cid := by
  have := List.find?_some h
  simpa using this

theorem getD_char_id (db : List WordMastery) (cid : ℕ) (now : ℚ) :
    ((getWord db cid).getD (initializeWord cid now)).char_id = cid := by
  cases h : getWord db cid with
  | none => rfl
  | some w => simpa using getWord_char_id h

/-- The body of the `db.transaction` loop in `recordSentenceAttempt`: for each
unique entry, fetch-or-create the record, apply `updateMastery`, and `put` it
back. -/
def applyAttempts (db : List WordMastery) (entries : List (ℕ × Bool))
    (now : ℚ) : List WordMastery :=
  entries.foldl (fun d e =>
    putWord d (updateMastery ((getWord d e.1).getD (initializeWord e.1 now))
      e.2 now)) db

/-- The pure state transformation of `recordSentenceAttempt` on the `words`
table. -/
def recordSentenceAttemptModel (db : List WordMastery)
    (attempts : List (ℕ × Bool)) (now : ℚ) : List WordMastery :=
  applyAttempts db (collapseAttempts attempts) now

theorem applyAttempts_cons (db : List WordMastery) (a : ℕ) (v : Bool)
    (t : List (ℕ × Bool)) (now : ℚ) :
    applyAttempts db ((a, v) :: t) now
      = applyAttempts
          (putWord db (updateMastery
            ((getWord db a).getD (initializeWord a now)) v now)) t now := rfl

theorem applyAttempts_not_mem (entries : List (ℕ × Bool)) :
    ∀ (db : List WordMastery) (now : ℚ) (cid : ℕ),
      cid ∉ entries.map Prod.fst →
      getWord (applyAttempts db entries now) cid = getWord db cid := by
  induction entries with
  | nil => intro db now cid _; rfl
  | cons e t ih =>
    intro db now cid h
    obtain ⟨a, v⟩ := e
    simp only [List.map_cons, List.mem_cons] at h
    push_neg at h
    rw [applyAttempts_cons, ih _ now cid h.2]
    apply getWord_putWord_ne
    rw [updateMastery_char_id, getD_char_id]
    exact h.1

theorem applyAttempts_mem (entries : List (ℕ × Bool)) :
    ∀ (db : List WordMastery) (now : ℚ) (cid : ℕ) (b : Bool),
      (entries.map Prod.fst).Nodup → (cid, b) ∈ entries →
      getWord (applyAttempts db entries now) cid
        = some (updateMastery ((getWord db cid).getD (initializeWord cid now))
            b now) := by
  induction entries with
  | nil => intro db now cid b _ h; cases h
  | cons e t ih =>
    intro db now cid b hnd h
    obtain ⟨a, v⟩ := e
    simp only [List.map_cons, List.nodup_cons] at hnd
    rcases List.mem_cons.1 h with he | ht
    · simp only [Prod.mk.injEq] at he
      obtain ⟨rfl, rfl⟩ := he
      rw [applyAttempts_cons]
      rw [applyAttempts_not_mem t _ now cid hnd.1]
      have hself := getWord_putWord_self db
        (updateMastery ((getWord db cid).getD (initializeWord cid now)) b now)
      rw [updateMastery_char_id, getD_char_id] at hself
      exact hself
    · have hkeys : cid ∈ List.map Prod.fst t :=
        List.mem_map_of_mem Prod.fst ht
      have hne : cid ≠ a := fun hc => hnd.1 (hc ▸ hkeys)
      rw [applyAttempts_cons]
      rw [ih _ now cid b hnd.2 ht]
      have hput : getWord (putWord db (updateMastery
          ((getWord db a).getD (initializeWord a now)) v now)) cid
          = getWord db cid := by
        apply getWord_putWord_ne
        rw [updateMastery_char_id, getD_char_id]
        exact hne
      rw [hput]

/-- C5: `recordSentenceAttempt` groups attempts by `char_id` and collapses
duplicates with logical AND: every `char_id` occurring in the batch gets
exactly one `updateMastery` application to its original record, with outcome
`correct` iff every attempt on that item in the batch was correct; records of
items not in the batch are untouched. -/
theorem recordSentenceAttempt_dedup (attempts : List (ℕ × Bool))
    (db : List WordMastery) (now : ℚ) (cid : ℕ) :
    (cid ∈ attempts.map Prod.fst →
      getWord (recordSentenceAttemptModel db attempts now) cid
        = some (updateMastery ((getWord db cid).getD (initializeWord cid now))
            (allCorrect attempts cid) now))
    ∧ (cid ∉ attempts.map Prod.fst →
      getWord (recordSentenceAttemptModel db attempts now) cid
        = getWord db cid) := by
  constructor
  · intro hmem
    have hl := lookup_collapseAttempts attempts cid
    rw [if_pos hmem] at hl
    exact applyAttempts_mem _ _ _ _ _ (nodup_keys_collapseAttempts attempts)
      (lookup_eq_some_mem hl)
  · intro hmem
    apply applyAttempts_not_mem
    intro hc
    obtain ⟨v, hv⟩ := mem_keys_lookup_isSome hc
    rw [lookup_collapseAttempts, if_neg hmem] at hv
    cases hv

/-- Witness for `recordSentenceAttempt_dedup`: a batch that repeats item 1
with outcomes correct-then-wrong applies `updateMastery` once to item 1 with
the AND-collapsed outcome `false`. -/
theorem recordSentenceAttempt_dedup_witness :
    (1 ∈ ([(1, true), (1, false), (2, true)] : List (ℕ × Bool)).map Prod.fst)
    ∧ getWord (recordSentenceAttemptModel [] [(1, true), (1, false), (2, true)] 0) 1
        = some (updateMastery (initializeWord 1 0) false 0) := by
  refine ⟨by decide, ?_⟩
  exact (recordSentenceAttempt_dedup [(1, true), (1, false), (2, true)] [] 0 1).1
    (by decide)

/-! ### Persistence of one completed sentence (C3)

On sentence completion the practice page calls `recordSentenceAttempt`
followed by `recordSentenceProgress`.  `recordSentenceAttempt` wraps all its
word writes in one `db.transaction('rw', db.words, ...)`; the
`SentenceProgress` write is a separate single-record `db.sentences.put`.
We model the whole flow as its sequence of atomic persistence blocks and a
crash as stopping after a prefix of them. -/

/-- The `sentences` table, keyed by `sid`. -/
def getSentenceProgress (sdb : List SentenceProgress) (sid : ℕ) :
    Option SentenceProgress :=
  sdb.find? (fun st => st.sid == sid)

/-- `db.sentences.put`: upsert by the primary key `sid`. -/
def putSentenceProgress (sdb : List SentenceProgress) (st : SentenceProgress) :
    List SentenceProgress :=
  if sdb.any (fun x => x.sid == st.sid) then
    sdb.map (fun x => if x.sid = st.sid then st else x)
  else sdb ++ [st]

/-- The whole persisted state. -/
structure DBState where
  words : List WordMastery
  sentences : List SentenceProgress
deriving DecidableEq

/-- Atomic block 1: the `db.transaction('rw', db.words, ...)` of
`recordSentenceAttempt`. -/
def wordsTxBlock (attempts : List (ℕ × Bool)) (now : ℚ) (db : DBState) :
    DBState :=
  { db with words := recordSentenceAttemptModel db.words attempts now }

/-- Atomic block 2: the single `db.sentences.put` of
`recordSentenceProgress`. -/
def sentencePutBlock (sid : ℕ) (score : ℚ) (now : ℚ) (db : DBState) :
    DBState :=
  let upd := recordSentenceProgressUpdate (getSentenceProgress db.sentences sid)
    sid score now
  { db with sentences := putSentenceProgress db.sentences upd }

/-- The sequence of atomic persistence blocks executed for one completed
sentence, in program order. -/
def sentenceCompletionBlocks (attempts : List (ℕ × Bool)) (sid : ℕ)
    (score : ℚ) (now : ℚ) : List (DBState → DBState) :=
  [wordsTxBlock attempts now, sentencePutBlock sid score now]

/-- Run the first `n` atomic blocks (a crash after block `n`). -/
def runBlocksPrefix (blocks : List (DBState → DBState)) (n : ℕ)
    (db : DBState) : DBState :=
  (blocks.take n).foldl (fun s f => f s) db

/-- C3 counterexample: the writes for one completed sentence are NOT one
atomic multi-record transaction.  A crash after the words transaction but
before the sentence-progress put (prefix of length 1) leaves item 1 updated
while the sentence record for sid 5 does not exist — some records updated
and others not, at a concrete input. -/
theorem sentenceCompletion_partial_write :
    getWord (runBlocksPrefix (sentenceCompletionBlocks [(1, true)] 5 1 0) 1
        ⟨[], []⟩).words 1
      = some (updateMastery (initializeWord 1 0) true 0)
    ∧ getWord ([] : List WordMastery) 1 = none
    ∧ getSentenceProgress (runBlocksPrefix
        (sentenceCompletionBlocks [(1, true)] 5 1 0) 1 ⟨[], []⟩).sentences 5
      = none := by
  refine ⟨?_, rfl, rfl⟩
  have h := (recordSentenceAttempt_dedup [(1, true)] [] 0 1).1 (by decide)
  exact h

/-- C3 amended: the per-item mastery writes of one completed sentence are
atomic as a group — after a crash at any block boundary the `words` table is
either fully untouched or carries the complete `recordSentenceAttempt` update;
the `SentenceProgress` write is a separate, later atomic single-record
write. -/
theorem wordWrites_atomic (attempts : List (ℕ × Bool)) (sid : ℕ)
    (score : ℚ) (now : ℚ) (db : DBState) (n : ℕ) :
    ((runBlocksPrefix (sentenceCompletionBlocks attempts sid score now) n db).words
        = db.words
     ∨ (runBlocksPrefix (sentenceCompletionBlocks attempts sid score now) n db).words
        = recordSentenceAttemptModel db.words attempts now)
    ∧ (runBlocksPrefix (sentenceCompletionBlocks attempts sid score now) 2 db).words
        = recordSentenceAttemptModel db.words attempts now
    ∧ (runBlocksPrefix (sentenceCompletionBlocks attempts sid score now) 2 db).sentences
        = putSentenceProgress ((wordsTxBlock attempts now db).sentences)
            (recordSentenceProgressUpdate
              (getSentenceProgress (wordsTxBlock attempts now db).sentences sid)
              sid score now) := by
  refine ⟨?_, rfl, rfl⟩
  match n with
  | 0 => exact Or.inl rfl
  | 1 => exact Or.inr rfl
  | (k + 2) =>
    right
    show (runBlocksPrefix (sentenceCompletionBlocks attempts sid score now)
      (k + 2) db).words = _
    have htake : (sentenceCompletionBlocks attempts sid score now).take (k + 2)
        = sentenceCompletionBlocks attempts sid score now := by
      simp [sentenceCompletionBlocks]
    unfold runBlocksPrefix
    rw [htake]
    rfl

/-! ### NSS corpus types (`types.ts`) -/

inductive ScriptType
  | simplified
  | traditional
  | neutral
  | ambiguous
deriving DecidableEq

inductive ScriptFilter
  | simplified
  | traditional
  | mixed
deriving DecidableEq

/-- The cumulative HSK filter values `'1' | '1-2' | ... | '1-beyond'`. -/
inductive HskFilter
  | h1
  | h1_2
  | h1_3
  | h1_4
  | h1_5
  | h1_6
  | h1_9
  | h1_beyond
deriving DecidableEq

structure CharPinyin where
  char : String
  pinyin : Option String
deriving DecidableEq

structure Sentence where
  id : ℕ
  sentence : String
  english_translation : String
  script_type : ScriptType
  chars : List CharPinyin
  hskLevel : Option String
deriving DecidableEq

/-! ### `SELECTION_CONFIG` (`selection-config.ts`) -/

namespace SELECTION_CONFIG

def θ_known : ℚ := 7/10
def k_min : ℕ := 2
def k_max : ℕ := 5
def k_min_backlog : ℕ := 1
def k_max_backlog : ℕ := 3
def due_cap : ℕ := 80
def cooldown_minutes : ℚ := 60
def ewma_skip_threshold : ℚ := 9/10
def min_seen_for_skip : ℕ := 2
def overdue_boost : ℚ := 12/10
def novelty_weight : ℚ := 5/100
def pass_penalty_weight : ℚ := 1/10
def k_penalty_weight : ℚ := 2/10
def batch_size : ℕ := 10
def prefetch_threshold : ℕ := 2
def pool_sample_size : ℕ := 200
def max_novelty_hours : ℚ := 72

/-- `k_cap_by_mastery` tiers: (threshold, k_cap), `none` meaning no cap. -/
def cold_start_threshold : ℚ := 4/10
def cold_start_k_cap : Option ℕ := some 12
def early_threshold : ℚ := 6/10
def early_k_cap : Option ℕ := some 10
def intermediate_threshold : ℚ := 75/100
def intermediate_k_cap : Option ℕ := some 8
def advanced_threshold : ℚ := 1
def advanced_k_cap : Option ℕ := none

end SELECTION_CONFIG

/-! ### Dynamic `k_cap` (`characters.ts` `getDynamicKCap`) -/

/-- `getAverageMastery`: average `s` over all stored words, `INITIAL_S` when
none are stored yet (cold start). -/
def getAverageMastery (db : List WordMastery) : ℚ :=
  if db = [] then INITIAL_S
  else (db.map WordMastery.s).sum / db.length

/-- The threshold chain of `getDynamicKCap` as a function of the average
mastery. -/
def getDynamicKCapOfAvg (avgMastery : ℚ) : Option ℕ :=
  if avgMastery < SELECTION_CONFIG.cold_start_threshold then
    SELECTION_CONFIG.cold_start_k_cap
  else if avgMastery < SELECTION_CONFIG.early_threshold then
    SELECTION_CONFIG.early_k_cap
  else if avgMastery < SELECTION_CONFIG.intermediate_threshold then
    SELECTION_CONFIG.intermediate_k_cap
  else
    SELECTION_CONFIG.advanced_k_cap

/-- `getDynamicKCap` reading the `words` table. -/
def getDynamicKCap (db : List WordMastery) : Option ℕ :=
  getDynamicKCapOfAvg (getAverageMastery db)

/-- The order on caps used by C2: `none` ("no cap") is unbounded, i.e. the
top element. -/
def capLE : Option ℕ → Option ℕ → Prop
  | _, none => True
  | some a, some b => a ≤ b
  | none, some _ => False

/-- C2 counterexample: the cap selected for average mastery `0.3`
(cold start, cap 12) is strictly larger than the one selected for `0.65`
(intermediate, cap 8), so the cap is NOT monotone in the claimed direction:
a lower average mastery produces a *higher* cap. -/
theorem getDynamicKCap_not_monotone :
    ((3 : ℚ)/10 ≤ 65/100)
    ∧ getDynamicKCapOfAvg (3/10) = some 12
    ∧ getDynamicKCapOfAvg (65/100) = some 8
    ∧ ¬ capLE (getDynamicKCapOfAvg (3/10)) (getDynamicKCapOfAvg (65/100)) := by
  have h1 : getDynamicKCapOfAvg (3/10) = some 12 := by
    norm_num [getDynamicKCapOfAvg, SELECTION_CONFIG.cold_start_threshold,
      SELECTION_CONFIG.cold_start_k_cap]
  have h2 : getDynamicKCapOfAvg (65/100) = some 8 := by
    norm_num [getDynamicKCapOfAvg, SELECTION_CONFIG.cold_start_threshold,
      SELECTION_CONFIG.early_threshold, SELECTION_CONFIG.intermediate_threshold,
      SELECTION_CONFIG.intermediate_k_cap]
  refine ⟨by norm_num, h1, h2, ?_⟩
  rw [h1, h2]
  simp [capLE]

/-- C2 amended: among the capped tiers the cap is antitone in average
mastery — for `a ≤ b` with both selected caps finite, the cap at `b` is at
most the cap at `a`; only the final (advanced) tier is uncapped.  (The code
gives a LOWER average mastery a HIGHER cap, the opposite direction of the
original claim.) -/
theorem getDynamicKCap_capped_antitone (a b : ℚ) (hab : a ≤ b) (x y : ℕ)
    (ha : getDynamicKCapOfAvg a = some x)
    (hb : getDynamicKCapOfAvg b = some y) : y ≤ x := by
  unfold getDynamicKCapOfAvg at ha hb
  simp only [SELECTION_CONFIG.cold_start_threshold, SELECTION_CONFIG.early_threshold,
    SELECTION_CONFIG.intermediate_threshold, SELECTION_CONFIG.cold_start_k_cap,
    SELECTION_CONFIG.early_k_cap, SELECTION_CONFIG.intermediate_k_cap,
    SELECTION_CONFIG.advanced_k_cap] at ha hb
  have key : ∀ c : ℚ, ∀ z : ℕ,
      (if c < (4:ℚ)/10 then some 12
       else if c < (6:ℚ)/10 then some 10
       else if c < (75:ℚ)/100 then some 8
       else (none : Option ℕ)) = some z →
      (c < 4/10 ∧ 12 = z)
      ∨ (4/10 ≤ c ∧ c < 6/10 ∧ 10 = z)
      ∨ (6/10 ≤ c ∧ c < 75/100 ∧ 8 = z) := by
    intro c z h
    split_ifs at h with h1 h2 h3
    · exact Or.inl ⟨h1, Option.some.inj h⟩
    · exact Or.inr (Or.inl ⟨not_lt.1 h1, h2, Option.some.inj h⟩)
    · exact Or.inr (Or.inr ⟨not_lt.1 h2, h3, Option.some.inj h⟩)
  rcases key a x ha with ⟨ha1, rfl⟩ | ⟨ha1, ha2, rfl⟩ | ⟨ha1, ha2, rfl⟩ <;>
    rcases key b y hb with ⟨hb1, rfl⟩ | ⟨hb1, hb2, rfl⟩ | ⟨hb1, hb2, rfl⟩ <;>
    first
      | omega
      | linarith

/-- Witness for `getDynamicKCap_capped_antitone` at `a = 0.5 ≤ b = 0.65`. -/
theorem getDynamicKCap_capped_antitone_witness :
    ((1 : ℚ)/2 ≤ 65/100)
    ∧ getDynamicKCapOfAvg (1/2) = some 10
    ∧ getDynamicKCapOfAvg (65/100) = some 8
    ∧ (8 : ℕ) ≤ 10 := by
  have h1 : getDynamicKCapOfAvg (1/2) = some 10 := by
    norm_num [getDynamicKCapOfAvg, SELECTION_CONFIG.cold_start_threshold,
      SELECTION_CONFIG.early_threshold, SELECTION_CONFIG.early_k_cap]
  have h2 : getDynamicKCapOfAvg (65/100) = some 8 := by
    norm_num [getDynamicKCapOfAvg, SELECTION_CONFIG.cold_start_threshold,
      SELECTION_CONFIG.early_threshold, SELECTION_CONFIG.intermediate_threshold,
      SELECTION_CONFIG.intermediate_k_cap]
  exact ⟨by norm_num, h1, h2,
    getDynamicKCap_capped_antitone (1/2) (65/100) (by norm_num) 10 8 h1 h2⟩

/-! ### Scoring (`characters.ts` `scoreSentence`)

`getCharId` (the CSV-backed character-to-id map) is an injected function,
and `Math.log` is an injected function `log : ℚ → ℚ`: no claim below
depends on its values. -/

/-- One element of the `unknowns` array built by `scoreSentence`. -/
structure UnknownEntry where
  char_id : ℕ
  s : ℚ
  overdue : Bool
deriving DecidableEq

/-- The `unknowns` array of `scoreSentence`: for each char with a (truthy)
pinyin and a resolvable id, look up its mastery (defaulting to `INITIAL_S`
when there is no record), keep it iff `s < θ_known`, flagging overdue
(`now ≥ next_review_ts`; never for a missing record). -/
def unknownsOf (words : List WordMastery) (charId : String → Option ℕ)
    (sentence : Sentence) (θ : ℚ) (now : ℚ) : List UnknownEntry :=
  sentence.chars.filterMap (fun c =>
    match c.pinyin with
    | none => none
    | some p =>
      if p = "" then none
      else
        match charId c.char with
        | none => none
        | some cid =>
          let wm := getWord words cid
          let s := (wm.map WordMastery.s).getD INITIAL_S
          if s < θ then
            some ⟨cid, s,
              match wm with
              | some w => decide (now ≥ w.next_review_ts)
              | none => false⟩
          else none)

/-- The per-entry contribution to `base_gain`: `(1−s)`, multiplied by
`overdue_boost` when the entry is overdue. -/
def gainOf (u : UnknownEntry) : ℚ :=
  (1 - u.s) * (if u.overdue then SELECTION_CONFIG.overdue_boost else 1)

/-- `hoursSinceSeen`, capped at `max_novelty_hours`; never-seen sentences
use the cap. -/
def hoursSinceSeen (sentenceState : Option SentenceProgress) (now : ℚ) : ℚ :=
  match sentenceState with
  | none => SELECTION_CONFIG.max_novelty_hours
  | some st => min ((now - st.last_seen_ts) / 3600000)
      SELECTION_CONFIG.max_novelty_hours

structure ScoredSentence where
  sid : ℕ
  score : ℚ
  k : ℕ
  last_seen_ts : ℚ
deriving DecidableEq

/-- `scoreSentence` with its `θ_known` and `k_cap` options already resolved
(the callers pass `θ_known` defaulted from config and `k_cap` from
`getDynamicKCap`). -/
def scoreSentence (log : ℚ → ℚ) (words : List WordMastery)
    (sdb : List SentenceProgress) (charId : String → Option ℕ)
    (sentence : Sentence) (k_min k_max : ℕ) (now θ : ℚ)
    (k_cap : Option ℕ) : Option ScoredSentence :=
  let unknowns := unknownsOf words charId sentence θ now
  let k := unknowns.length
  if k = 0 then none
  else if (match k_cap with
           | some cap => decide (k > cap)
           | none => false) then none
  else
    let base_gain := (unknowns.map gainOf).sum
    let sentenceState := getSentenceProgress sdb sentence.id
    let hours := hoursSinceSeen sentenceState now
    let novelty := SELECTION_CONFIG.novelty_weight * log (1 + hours)
    let pass_penalty := SELECTION_CONFIG.pass_penalty_weight
      * ((sentenceState.map SentenceProgress.ewma_pass).getD 0)
    let k_penalty :=
      if k < k_min ∨ k > k_max then
        SELECTION_CONFIG.k_penalty_weight
          * |(k : ℚ) - (if k < k_min then (k_min : ℚ) else (k_max : ℚ))|
      else 0
    some ⟨sentence.id, base_gain + novelty - pass_penalty - k_penalty, k,
      (sentenceState.map SentenceProgress.last_seen_ts).getD 0⟩

/-- C7: `scoreSentence` returns `none` ("no score") iff the unknown count
`k` is `0`, or `k_cap` is non-null and `k > k_cap`; in particular a sentence
with `k = 0` unknowns is never given a score. -/
theorem scoreSentence_none_iff (log : ℚ → ℚ) (words : List WordMastery)
    (sdb : List SentenceProgress) (charId : String → Option ℕ)
    (sentence : Sentence) (k_min k_max : ℕ) (now θ : ℚ) (k_cap : Option ℕ) :
    scoreSentence log words sdb charId sentence k_min k_max now θ k_cap = none
      ↔ (unknownsOf words charId sentence θ now).length = 0
        ∨ (∃ cap, k_cap = some cap
            ∧ (unknownsOf words charId sentence θ now).length > cap) := by
  unfold scoreSentence
  constructor
  · intro h
    by_cases h0 : (unknownsOf words charId sentence θ now).length = 0
    · exact Or.inl h0
    · rw [if_neg h0] at h
      right
      cases hc : k_cap with
      | none =>
        rw [hc] at h
        simp at h
      | some cap =>
        rw [hc] at h
        by_cases hgt : (unknownsOf words charId sentence θ now).length > cap
        · exact ⟨cap, rfl, hgt⟩
        · simp [hgt] at h
  · intro h
    rcases h with h0 | ⟨cap, hcap, hgt⟩
    · rw [if_pos h0]
    · rw [hcap]
      by_cases h0 : (unknownsOf words charId sentence θ now).length = 0



      · rw [if_pos h0]
      · rw [if_neg h0, if_pos (by simpa using hgt)]

/-- C10: in `scoreSentence`, a learnable char (truthy pinyin, resolvable id)
with no stored mastery record enters the unknown set under the default
`θ_known = 0.7` with `s = INITIAL_S = 0.3` and `overdue = false` — it is
never flagged overdue — and its `base_gain` contribution is exactly
`1 − 0.3 = 0.7` (no overdue boost). -/
theorem scoreSentence_missing_record (words : List WordMastery)
    (charId : String → Option ℕ) (sentence : Sentence) (now : ℚ)
    (c : CharPinyin) (p : String) (cid : ℕ)
    (hc : c ∈ sentence.chars) (hp : c.pinyin = some p) (hpe : p ≠ "")
    (hid : charId c.char = some cid) (hw : getWord words cid = none) :
    (⟨cid, INITIAL_S, false⟩ : UnknownEntry)
        ∈ unknownsOf words charId sentence SELECTION_CONFIG.θ_known now
    ∧ INITIAL_S = 3/10
    ∧ gainOf ⟨cid, INITIAL_S, false⟩ = 1 - 3/10 := by
  refine ⟨?_, rfl, by norm_num [gainOf, INITIAL_S]⟩
  apply List.mem_filterMap.2
  refine ⟨c, hc, ?_⟩
  rw [hp]
  simp only [if_neg hpe, hid, hw]
  rw [if_pos (by norm_num [INITIAL_S, SELECTION_CONFIG.θ_known])]
  rfl

/-- Witness for `scoreSentence_missing_record` on a one-char sentence with
an empty mastery table. -/
theorem scoreSentence_missing_record_witness :
    (⟨7, INITIAL_S, false⟩ : UnknownEntry)
        ∈ unknownsOf [] (fun s => if s = "ni" then some 7 else none)
            ⟨1, "ni", "you", ScriptType.neutral, [⟨"ni", some "ni3"⟩], some "1"⟩
            SELECTION_CONFIG.θ_known 0
    ∧ INITIAL_S = 3/10
    ∧ gainOf ⟨7, INITIAL_S, false⟩ = 1 - 3/10 :=
  scoreSentence_missing_record []
    (fun s => if s = "ni" then some 7 else none)
    ⟨1, "ni", "you", ScriptType.neutral, [⟨"ni", some "ni3"⟩], some "1"⟩
    0 ⟨"ni", some "ni3"⟩ "ni3" 7
    (by simp) rfl (by decide) (by simp) rfl

/-! ### Eligibility filter (`characters.ts` `getEligibleSentences`) -/

/-- `parseHskFilter`: cumulative sets of level tags. -/
def parseHskFilter : HskFilter → List String
  | .h1 => ["1"]
  | .h1_2 => ["1", "2"]
  | .h1_3 => ["1", "2", "3"]
  | .h1_4 => ["1", "2", "3", "4"]
  | .h1_5 => ["1", "2", "3", "4", "5"]
  | .h1_6 => ["1", "2", "3", "4", "5", "6"]
  | .h1_9 => ["1", "2", "3", "4", "5", "6", "7-9"]
  | .h1_beyond => ["1", "2", "3", "4", "5", "6", "7-9", "beyond-hsk"]

/-- `countDueWords`: `db.words.where('next_review_ts').belowOrEqual(now)`. -/
def countDueWords (words : List WordMastery) (now : ℚ) : ℕ :=
  (words.filter (fun w => decide (w.next_review_ts ≤ now))).length

/-- `getDifficultyBand`: tightened band when the review backlog exceeds
`due_cap`. -/
def getDifficultyBand (dueWords : ℕ) : ℕ × ℕ :=
  if dueWords > SELECTION_CONFIG.due_cap then
    (SELECTION_CONFIG.k_min_backlog, SELECTION_CONFIG.k_max_backlog)
  else
    (SELECTION_CONFIG.k_min, SELECTION_CONFIG.k_max)

/-- The script-type predicate of filter step 1: ambiguous is always
excluded; `simplified`/`traditional` keep their own plus `neutral`; `mixed`
keeps everything non-ambiguous. -/
def scriptKeep (scriptFilter : ScriptFilter) (s : Sentence) : Bool :=
  if s.script_type = ScriptType.ambiguous then false
  else
    match scriptFilter with
    | .simplified =>
        decide (s.script_type = ScriptType.simplified
          ∨ s.script_type = ScriptType.neutral)
    | .traditional =>
        decide (s.script_type = ScriptType.traditional
          ∨ s.script_type = ScriptType.neutral)
    | .mixed => true

/-- `passesCooldown`: never-seen sentences always pass. -/
def passesCooldown (sentenceState : Option SentenceProgress) (now : ℚ)
    (ignoreCooldown : Bool) : Bool :=
  if ignoreCooldown then true
  else
    match sentenceState with
    | none => true
    | some st =>
        decide (now - st.last_seen_ts ≥ SELECTION_CONFIG.cooldown_minutes * 60000)

/-- `shouldSkip`: mastered sentences (high `ewma_pass`, enough views) are
skipped; never-seen sentences never skip. -/
def shouldSkip (sentenceState : Option SentenceProgress)
    (ignoreSkip : Bool) : Bool :=
  if ignoreSkip then false
  else
    match sentenceState with
    | none => false
    | some st =>
        decide (st.ewma_pass ≥ SELECTION_CONFIG.ewma_skip_threshold)
          && decide (st.seen_count ≥ SELECTION_CONFIG.min_seen_for_skip)

/-- `getEligibleSentences`: script filter (with non-ambiguous fallback), HSK
filter (with script-filtered fallback), then cooldown and mastery-skip
gates. -/
def getEligibleSentences (sdb : List SentenceProgress)
    (allSentences : List Sentence) (scriptFilter : ScriptFilter)
    (hskFilter : HskFilter) (now : ℚ)
    (ignoreCooldown ignoreSkip : Bool) : List Sentence :=
  let filtered0 := allSentences.filter (scriptKeep scriptFilter)
  let filtered1 :=
    if filtered0 = [] then
      allSentences.filter (fun s => decide (s.script_type ≠ ScriptType.ambiguous))
    else filtered0
  let allowedHskLevels := parseHskFilter hskFilter
  let hskFiltered := filtered1.filter (fun s =>
    match s.hskLevel with
    | none => false
    | some lv => allowedHskLevels.contains lv)
  let filtered2 := if hskFiltered = [] then filtered1 else hskFiltered
  filtered2.filter (fun s =>
    passesCooldown (getSentenceProgress sdb s.id) now ignoreCooldown
      && !shouldSkip (getSentenceProgress sdb s.id) ignoreSkip)

/-- `scoreCandidates`: score every candidate, dropping rejects. -/
def scoreCandidates (log : ℚ → ℚ) (words : List WordMastery)
    (sdb : List SentenceProgress) (charId : String → Option ℕ)
    (sentences : List Sentence) (k_min k_max : ℕ) (now θ : ℚ)
    (k_cap : Option ℕ) : List ScoredSentence :=
  sentences.filterMap
    (fun s => scoreSentence log words sdb charId s k_min k_max now θ k_cap)

/-! ### Sorting and selection (`sortScored`, `takeTopN`) -/

/-- The comparator of `sortScored` as a total order test: score descending,
then `k` descending, then `last_seen_ts` ascending. -/
def scoredLE (a b : ScoredSentence) : Bool :=
  if a.score ≠ b.score then decide (b.score < a.score)
  else if a.k ≠ b.k then decide (b.k < a.k)
  else decide (a.last_seen_ts ≤ b.last_seen_ts)

def insertScored (a : ScoredSentence) :
    List ScoredSentence → List ScoredSentence
  | [] => [a]
  | b :: t => if scoredLE a b then a :: b :: t else b :: insertScored a t

/-- `Array.prototype.sort` with the `sortScored` comparator, modelled as a
stable insertion sort by `scoredLE`. -/
def sortScored : List ScoredSentence → List ScoredSentence
  | [] => []
  | a :: t => insertScored a (sortScored t)

theorem insertScored_perm (a : ScoredSentence) (l : List ScoredSentence) :
    (insertScored a l).Perm (a :: l) := by
  induction l with
  | nil => exact List.Perm.refl _
  | cons b t ih =>
    unfold insertScored
    split
    · exact List.Perm.refl _
    · exact (ih.cons b).trans (List.Perm.swap a b t)

theorem sortScored_perm (l : List ScoredSentence) : (sortScored l).Perm l := by
  induction l with
  | nil => exact List.Perm.refl _
  | cons a t ih => exact (insertScored_perm a (sortScored t)).trans (ih.cons a)

/-- `takeTopN`: sort and keep the first `n`. -/
def takeTopN (scored : List ScoredSentence) (n : ℕ) : List ScoredSentence :=
  (sortScored scored).take n

/-! ### Fallback cascade and batch generation -/

/-- The relaxed parameters and re-filtered pool of `applyFallbacks` at a
given attempt (1-5): attempts 1+ widen the band to `[1,6]`, attempts 2+
ignore cooldown, attempts 3+ lower `θ_known` to `0.65`, attempts 4+ ignore
the mastery skip. -/
structure FallbackResult where
  pool : List Sentence
  k_min : ℕ
  k_max : ℕ
  θ_known : ℚ

def applyFallbacks (words : List WordMastery) (sdb : List SentenceProgress)
    (allSentences : List Sentence) (scriptFilter : ScriptFilter)
    (hskFilter : HskFilter) (now : ℚ) (attempt : ℕ) : FallbackResult :=
  let band := getDifficultyBand (countDueWords words now)
  let relaxed : ℕ × ℕ × ℚ :=
    match attempt with
    | 1 => (1, 6, SELECTION_CONFIG.θ_known)
    | 2 => (1, 6, SELECTION_CONFIG.θ_known)
    | 3 => (1, 6, 65/100)
    | 4 => (1, 6, 65/100)
    | _ => (band.1, band.2, SELECTION_CONFIG.θ_known)
  let pool := getEligibleSentences sdb allSentences scriptFilter hskFilter now
    (decide (attempt ≥ 2)) (decide (attempt ≥ 4))
  ⟨pool, relaxed.1, relaxed.2.1, relaxed.2.2⟩

/-- Step 5 of the cascade: `shuffle(allSentences)` filtered to non-ambiguous,
sliced to `batch_size`, mapped to zero-scored entries. -/
def absoluteFallback (shS : ℕ → List Sentence → List Sentence)
    (allSentences : List Sentence) : List ScoredSentence :=
  (((shS 5 allSentences).filter
      (fun s => decide (s.script_type ≠ ScriptType.ambiguous))).take
    SELECTION_CONFIG.batch_size).map (fun s => ⟨s.id, 0, 0, 0⟩)

/-- The `while (scored.length < batch_size && fallbackAttempt < 5)` loop of
`generateSentenceBatch`.  `remaining` is the structural counter
`5 − fallbackAttempt`, so the loop guard `fallbackAttempt < 5` is
`remaining > 0`.  Returns the final `scored` list together with
`fallbackAttempt`. -/
def fallbackLoopGo (log : ℚ → ℚ) (charId : String → Option ℕ)
    (shS : ℕ → List Sentence → List Sentence) (words : List WordMastery)
    (sdb : List SentenceProgress) (allSentences : List Sentence)
    (scriptFilter : ScriptFilter) (hskFilter : HskFilter) (now : ℚ)
    (k_cap : Option ℕ) :
    ℕ → List ScoredSentence → ℕ → List ScoredSentence × ℕ
  | 0, scored, attempt => (scored, attempt)
  | remaining + 1, scored, attempt =>
    if scored.length < SELECTION_CONFIG.batch_size then
      if attempt + 1 = 5 then
        (absoluteFallback shS allSentences, attempt + 1)
      else
        fallbackLoopGo log charId shS words sdb allSentences scriptFilter
          hskFilter now k_cap remaining
          (scoreCandidates log words sdb charId
            ((shS (attempt + 1)
              (applyFallbacks words sdb allSentences scriptFilter hskFilter
                now (attempt + 1)).pool).take SELECTION_CONFIG.pool_sample_size)
            (applyFallbacks words sdb allSentences scriptFilter hskFilter now
              (attempt + 1)).k_min
            (applyFallbacks words sdb allSentences scriptFilter hskFilter now
              (attempt + 1)).k_max
            now
            (applyFallbacks words sdb allSentences scriptFilter hskFilter now
              (attempt + 1)).θ_known
            k_cap)
          (attempt + 1)
    else (scored, attempt)

/-- The initial scored candidate list of `generateSentenceBatch` (steps 2-3):
eligible pool, sampled to `pool_sample_size`, scored under the backlog band
and the dynamic `k_cap`. -/
def initialScored (log : ℚ → ℚ) (charId : String → Option ℕ)
    (shS : ℕ → List Sentence → List Sentence) (words : List WordMastery)
    (sdb : List SentenceProgress) (allSentences : List Sentence)
    (scriptFilter : ScriptFilter) (hskFilter : HskFilter) (now : ℚ) :
    List ScoredSentence :=
  scoreCandidates log words sdb charId
    ((shS 0 (getEligibleSentences sdb allSentences scriptFilter hskFilter now
        false false)).take
      (min (getEligibleSentences sdb allSentences scriptFilter hskFilter now
        false false).length SELECTION_CONFIG.pool_sample_size))
    (getDifficultyBand (countDueWords words now)).1
    (getDifficultyBand (countDueWords words now)).2
    now SELECTION_CONFIG.θ_known (getDynamicKCap words)

/-- Steps 3-4 of `generateSentenceBatch`: initial scoring followed by the
fallback loop (entered with `fallbackAttempt = 0`). -/
def batchLoopResult (log : ℚ → ℚ) (charId : String → Option ℕ)
    (shS : ℕ → List Sentence → List Sentence) (words : List WordMastery)
    (sdb : List SentenceProgress) (allSentences : List Sentence)
    (scriptFilter : ScriptFilter) (hskFilter : HskFilter) (now : ℚ) :
    List ScoredSentence × ℕ :=
  fallbackLoopGo log charId shS words sdb allSentences scriptFilter hskFilter
    now (getDynamicKCap words) 5
    (initialScored log charId shS words sdb allSentences scriptFilter
      hskFilter now)
    0

/-- The persisted queue record (`SentenceQueue` in `db.ts`). -/
structure SentenceQueue where
  id : ℕ
  sentences : List ℕ
  current_index : ℕ
  generated_at : ℚ
  script_filter : ScriptFilter
  hsk_filter : HskFilter
deriving DecidableEq

/-- `generateSentenceBatch`, with `Date.now()`, the character map, `Math.log`
and the shuffles injected.  `shS i` is the shuffle at call site `i` (`0`:
initial pool, `1..4`: fallback pools, `5`: absolute-fallback corpus) and
`shR` the final shuffle of the selected batch.  Throws on an empty corpus;
otherwise returns the queue and the number of fallback attempts used. -/
def generateSentenceBatchAux (log : ℚ → ℚ) (charId : String → Option ℕ)
    (shS : ℕ → List Sentence → List Sentence)
    (shR : List ScoredSentence → List ScoredSentence)
    (words : List WordMastery) (sdb : List SentenceProgress)
    (allSentences : List Sentence) (scriptFilter : ScriptFilter)
    (hskFilter : HskFilter) (now : ℚ) : Except String (SentenceQueue × ℕ) :=
  if allSentences = [] then
    Except.error "[NSS] No sentences available in corpus"
  else
    Except.ok
      (⟨1,
        (shR (takeTopN
          (batchLoopResult log charId shS words sdb allSentences scriptFilter
            hskFilter now).1
          SELECTION_CONFIG.batch_size)).map ScoredSentence.sid,
        0, now, scriptFilter, hskFilter⟩,
       (batchLoopResult log charId shS words sdb allSentences scriptFilter
         hskFilter now).2)

/-- `generateSentenceBatch` proper (the queue, dropping the attempt count the
source only logs). -/
def generateSentenceBatch (log : ℚ → ℚ) (charId : String → Option ℕ)
    (shS : ℕ → List Sentence → List Sentence)
    (shR : List ScoredSentence → List ScoredSentence)
    (words : List WordMastery) (sdb : List SentenceProgress)
    (allSentences : List Sentence) (scriptFilter : ScriptFilter)
    (hskFilter : HskFilter) (now : ℚ) : Except String SentenceQueue :=
  (generateSentenceBatchAux log charId shS shR words sdb allSentences
    scriptFilter hskFilter now).map Prod.fst

theorem fallbackLoopGo_spec (log : ℚ → ℚ) (charId : String → Option ℕ)
    (shS : ℕ → List Sentence → List Sentence) (words : List WordMastery)
    (sdb : List SentenceProgress) (allSentences : List Sentence)
    (scriptFilter : ScriptFilter) (hskFilter : HskFilter) (now : ℚ)
    (k_cap : Option ℕ) :
    ∀ (remaining attempt : ℕ) (scored : List ScoredSentence),
      attempt + remaining = 5 → attempt < 5 →
      (fallbackLoopGo log charId shS words sdb allSentences scriptFilter
          hskFilter now k_cap remaining scored attempt).2 ≤ 5
      ∧ ((fallbackLoopGo log charId shS words sdb allSentences scriptFilter
            hskFilter now k_cap remaining scored attempt).2 = 5 →
          (fallbackLoopGo log charId shS words sdb allSentences scriptFilter
              hskFilter now k_cap remaining scored attempt).1
            = absoluteFallback shS allSentences) := by
  intro remaining
  induction remaining with
  | zero =>
    intro attempt scored hsum hlt
    exact absurd hlt (by omega)
  | succ r ih =>
    intro attempt scored hsum hlt
    by_cases hlen : scored.length < SELECTION_CONFIG.batch_size
    · by_cases h5 : attempt + 1 = 5
      · have heq : fallbackLoopGo log charId shS words sdb allSentences
            scriptFilter hskFilter now k_cap (r + 1) scored attempt
            = (absoluteFallback shS allSentences, attempt + 1) := by
          simp only [fallbackLoopGo]
          rw [if_pos hlen, if_pos h5]
        rw [heq]
        exact ⟨by omega, fun _ => rfl⟩
      · have heq : fallbackLoopGo log charId shS words sdb allSentences
            scriptFilter hskFilter now k_cap (r + 1) scored attempt
            = fallbackLoopGo log charId shS words sdb allSentences scriptFilter
                hskFilter now k_cap r
                (scoreCandidates log words sdb charId
                  ((shS (attempt + 1)
                    (applyFallbacks words sdb allSentences scriptFilter
                      hskFilter now (attempt + 1)).pool).take
                    SELECTION_CONFIG.pool_sample_size)
                  (applyFallbacks words sdb allSentences scriptFilter hskFilter
                    now (attempt + 1)).k_min
                  (applyFallbacks words sdb allSentences scriptFilter hskFilter
                    now (attempt + 1)).k_max
                  now
                  (applyFallbacks words sdb allSentences scriptFilter hskFilter
                    now (attempt + 1)).θ_known
                  k_cap)
                (attempt + 1) := by
          simp only [fallbackLoopGo]
          rw [if_pos hlen, if_neg h5]
        rw [heq]
        exact ih (attempt + 1) _ (by omega) (by omega)
    · have heq : fallbackLoopGo log charId shS words sdb allSentences
          scriptFilter hskFilter now k_cap (r + 1) scored attempt
          = (scored, attempt) := by
        simp only [fallbackLoopGo]
        rw [if_neg hlen]
      rw [heq]
      exact ⟨by omega, fun h => absurd hlt (by omega)⟩

theorem batchLoopResult_spec (log : ℚ → ℚ) (charId : String → Option ℕ)
    (shS : ℕ → List Sentence → List Sentence) (words : List WordMastery)
    (sdb : List SentenceProgress) (allSentences : List Sentence)
    (scriptFilter : ScriptFilter) (hskFilter : HskFilter) (now : ℚ) :
    (batchLoopResult log charId shS words sdb allSentences scriptFilter
        hskFilter now).2 ≤ 5
    ∧ ((batchLoopResult log charId shS words sdb allSentences scriptFilter
          hskFilter now).2 = 5 →
        (batchLoopResult log charId shS words sdb allSentences scriptFilter
            hskFilter now).1 = absoluteFallback shS allSentences) := by
  unfold batchLoopResult
  exact fallbackLoopGo_spec log charId shS words sdb allSentences scriptFilter
    hskFilter now (getDynamicKCap words) 5 0 _ (by omega) (by omega)

/-- Concrete corpus for C4's counterexample: one ambiguous sentence. -/
def ambSentence : Sentence := ⟨1, "x", "x", ScriptType.ambiguous, [], none⟩

/-- C4 counterexample: on the non-empty corpus `[ambSentence]` (one
ambiguous sentence), the absolute fallback runs (5 attempts) and returns an
EMPTY batch — not `min batch_size corpusSize = 1` ids — because step 5
samples only the NON-ambiguous corpus, which is empty here even though the
corpus is not. -/
theorem generateSentenceBatch_step5_empty :
    ([ambSentence] : List Sentence) ≠ []
    ∧ generateSentenceBatchAux (fun _ => 0) (fun _ => none) (fun _ l => l)
        (fun l => l) [] [] [ambSentence] ScriptFilter.mixed HskFilter.h1 0
      = Except.ok (⟨1, [], 0, 0, ScriptFilter.mixed, HskFilter.h1⟩, 5)
    ∧ min SELECTION_CONFIG.batch_size [ambSentence].length = 1
    ∧ (⟨1, [], 0, 0, ScriptFilter.mixed, HskFilter.h1⟩ : SentenceQueue).sentences.length
        = 0 := by
  refine ⟨by simp, rfl, by decide, rfl⟩

/-- C4 amended: the cascade terminates within 5 attempts, and when the
absolute fallback (step 5) runs it returns `min batch_size |non-ambiguous
corpus|` sentence ids, all drawn from the non-ambiguous part of the corpus —
so it cannot fail (returns a non-empty batch) as long as the NON-AMBIGUOUS
corpus is non-empty (an entirely ambiguous corpus yields an empty batch). -/
theorem generateSentenceBatch_cascade (log : ℚ → ℚ)
    (charId : String → Option ℕ)
    (shS : ℕ → List Sentence → List Sentence)
    (shR : List ScoredSentence → List ScoredSentence)
    (words : List WordMastery) (sdb : List SentenceProgress)
    (allSentences : List Sentence) (scriptFilter : ScriptFilter)
    (hskFilter : HskFilter) (now : ℚ)
    (hshS : ∀ i l, (shS i l).Perm l) (hshR : ∀ l, (shR l).Perm l)
    (q : SentenceQueue) (n : ℕ)
    (hok : generateSentenceBatchAux log charId shS shR words sdb allSentences
        scriptFilter hskFilter now = Except.ok (q, n)) :
    n ≤ 5
    ∧ (n = 5 →
        q.sentences.length
          = min SELECTION_CONFIG.batch_size
              (allSentences.filter
                (fun s => decide (s.script_type ≠ ScriptType.ambiguous))).length
        ∧ (∀ sid ∈ q.sentences, ∃ s ∈ allSentences,
            s.id = sid ∧ s.script_type ≠ ScriptType.ambiguous)
        ∧ (allSentences.filter
              (fun s => decide (s.script_type ≠ ScriptType.ambiguous)) ≠ [] →
            q.sentences ≠ [])) := by
  unfold generateSentenceBatchAux at hok
  by_cases hemp : allSentences = []
  · rw [if_pos hemp] at hok
    cases hok
  · rw [if_neg hemp, Except.ok.injEq, Prod.mk.injEq] at hok
    obtain ⟨hq, hn⟩ := hok
    subst hq
    subst hn
    have hspec := batchLoopResult_spec log charId shS words sdb allSentences
      scriptFilter hskFilter now
    refine ⟨hspec.1, fun h5 => ?_⟩
    have habs := hspec.2 h5
    have hlength :
        ((shR (takeTopN
          (batchLoopResult log charId shS words sdb allSentences scriptFilter
            hskFilter now).1
          SELECTION_CONFIG.batch_size)).map ScoredSentence.sid).length
        = min SELECTION_CONFIG.batch_size
            (allSentences.filter
              (fun s => decide (s.script_type ≠ ScriptType.ambiguous))).length := by
      rw [habs, List.length_map, (hshR _).length_eq]
      unfold takeTopN
      rw [List.length_take, (sortScored_perm _).length_eq]
      unfold absoluteFallback
      rw [List.length_map, List.length_take,
        ((hshS 5 allSentences).filter _).length_eq, ← min_assoc, min_self]
    refine ⟨hlength, ?_, ?_⟩
    · intro sid hsid
      rw [habs] at hsid
      obtain ⟨x, hx, rfl⟩ := List.mem_map.1 hsid
      have hx1 : x ∈ takeTopN (absoluteFallback shS allSentences)
          SELECTION_CONFIG.batch_size := (hshR _).subset hx
      have hx2 : x ∈ sortScored (absoluteFallback shS allSentences) :=
        List.take_subset _ _ hx1
      have hx3 : x ∈ absoluteFallback shS allSentences :=
        (sortScored_perm _).subset hx2
      unfold absoluteFallback at hx3
      obtain ⟨s, hs, rfl⟩ := List.mem_map.1 hx3
      have hs1 : s ∈ (shS 5 allSentences).filter
          (fun s => decide (s.script_type ≠ ScriptType.ambiguous)) :=
        List.take_subset _ _ hs
      obtain ⟨hs2, hs3⟩ := List.mem_filter.1 hs1
      exact ⟨s, (hshS 5 allSentences).subset hs2, rfl, of_decide_eq_true hs3⟩
    · intro hF hnil
      have h0 : ((shR (takeTopN
          (batchLoopResult log charId shS words sdb allSentences scriptFilter
            hskFilter now).1
          SELECTION_CONFIG.batch_size)).map ScoredSentence.sid).length = 0 := by
        have hnil' : (shR (takeTopN
            (batchLoopResult log charId shS words sdb allSentences scriptFilter
              hskFilter now).1
            SELECTION_CONFIG.batch_size)).map ScoredSentence.sid = [] := hnil
        rw [hnil']
        rfl
      rw [hlength] at h0
      have hpos : 0 < (allSentences.filter
          (fun s => decide (s.script_type ≠ ScriptType.ambiguous))).length :=
        List.length_pos.2 hF
      have hb : 0 < SELECTION_CONFIG.batch_size := by
        norm_num [SELECTION_CONFIG.batch_size]
      exact absurd h0 (Nat.ne_of_gt (lt_min hb hpos))

/-- Witness for `generateSentenceBatch_cascade` with identity shuffles on the
all-ambiguous corpus: the run uses exactly 5 fallback attempts and the
length equation holds (with value 0 here). -/
theorem generateSentenceBatch_cascade_witness :
    (5 : ℕ) ≤ 5
    ∧ (⟨1, [], 0, 0, ScriptFilter.mixed, HskFilter.h1⟩ : SentenceQueue).sentences.length
        = min SELECTION_CONFIG.batch_size
            (([ambSentence] : List Sentence).filter
              (fun s => decide (s.script_type ≠ ScriptType.ambiguous))).length := by
  have h := generateSentenceBatch_cascade (fun _ => 0) (fun _ => none)
    (fun _ l => l) (fun l => l) [] [] [ambSentence] ScriptFilter.mixed
    HskFilter.h1 0 (fun _ l => List.Perm.refl l) (fun l => List.Perm.refl l)
    ⟨1, [], 0, 0, ScriptFilter.mixed, HskFilter.h1⟩ 5 rfl
  exact ⟨h.1, (h.2 rfl).1⟩

/-! ### Queue manager (`characters.ts` `getNextSentence`)

Module state: the persisted singleton queue (`db.queue.get(1)`) and the
module-level `nextBatchPromise`.  Under the single-consumer cooperative
model of §5, an in-flight prefetch promise is represented by the queue it
will resolve to, and `generateSentenceBatch` by an injected `gen` whose
result carries the filters it was called with. -/

structure QueueState where
  dbQueue : Option SentenceQueue
  nextBatchPromise : Option SentenceQueue
deriving DecidableEq

/-- Step 2 of `getNextSentence`: if the stored queue's script or HSK filter
differs from the requested one, drop both the queue and the in-flight
prefetch. -/
def invalidateIfFilterChanged (sf : ScriptFilter) (hf : HskFilter) :
    QueueState → QueueState
  | ⟨some q, pr⟩ =>
      if q.script_filter ≠ sf ∨ q.hsk_filter ≠ hf then ⟨none, none⟩
      else ⟨some q, pr⟩
  | ⟨none, pr⟩ => ⟨none, pr⟩

/-- Step 3: when there is no usable queue (missing or exhausted), await and
adopt the prefetched batch if one is in flight (clearing the promise),
otherwise generate synchronously.  Returns the active queue and the
remaining promise. -/
def adoptOrGenerate (gen : ScriptFilter → HskFilter → SentenceQueue)
    (sf : ScriptFilter) (hf : HskFilter) :
    QueueState → SentenceQueue × Option SentenceQueue
  | ⟨some q, pr⟩ =>
    if q.current_index ≥ q.sentences.length then
      match pr with
      | some p => (p, none)
      | none => (gen sf hf, none)
    else (q, pr)
  | ⟨none, some p⟩ => (p, none)
  | ⟨none, none⟩ => (gen sf hf, none)

/-- Step 4: start exactly one prefetch when the cursor is within
`prefetch_threshold` of the end and none is in flight. -/
def triggerPrefetch (gen : ScriptFilter → HskFilter → SentenceQueue)
    (sf : ScriptFilter) (hf : HskFilter) (q : SentenceQueue)
    (p : Option SentenceQueue) : Option SentenceQueue :=
  if (q.current_index : ℤ)
      ≥ (q.sentences.length : ℤ) - (SELECTION_CONFIG.prefetch_threshold : ℤ) then
    match p with
    | none => some (gen sf hf)
    | some p' => some p'
  else p

/-- One call of `getNextSentence`: invalidate on filter change, adopt or
generate, maybe trigger a prefetch, then draw `sentences[current_index]`
and persist the queue with the cursor advanced. -/
def getNextSentenceModel (gen : ScriptFilter → HskFilter → SentenceQueue)
    (sf : ScriptFilter) (hf : HskFilter) (st : QueueState) :
    Option ℕ × QueueState :=
  let st1 := invalidateIfFilterChanged sf hf st
  let qp := adoptOrGenerate gen sf hf st1
  let p3 := triggerPrefetch gen sf hf qp.1 qp.2
  (qp.1.sentences[qp.1.current_index]?,
   ⟨some { qp.1 with current_index := qp.1.current_index + 1 }, p3⟩)

/-- The cross-call invariant: an in-flight prefetch was computed under the
same filter signature as the stored queue. -/
def promiseConsistent (st : QueueState) : Prop :=
  ∀ p, st.nextBatchPromise = some p →
    ∃ q, st.dbQueue = some q ∧ p.script_filter = q.script_filter
      ∧ p.hsk_filter = q.hsk_filter

theorem invalidate_dbQueue_sig (sf : ScriptFilter) (hf : HskFilter)
    (st : QueueState) (q1 : SentenceQueue)
    (h : (invalidateIfFilterChanged sf hf st).dbQueue = some q1) :
    q1.script_filter = sf ∧ q1.hsk_filter = hf ∧ st.dbQueue = some q1 := by
  rcases st with ⟨dbq, pr⟩
  cases dbq with
  | none => simp [invalidateIfFilterChanged] at h
  | some q =>
    by_cases hsig : q.script_filter ≠ sf ∨ q.hsk_filter ≠ hf
    · simp [invalidateIfFilterChanged, if_pos hsig] at h
    · rw [show invalidateIfFilterChanged sf hf ⟨some q, pr⟩ = ⟨some q, pr⟩ from
        by simp [invalidateIfFilterChanged, if_neg hsig]] at h
      push_neg at hsig
      obtain rfl : q = q1 := by simpa using h
      exact ⟨hsig.1, hsig.2, rfl⟩

theorem invalidate_promise_sig (sf : ScriptFilter) (hf : HskFilter)
    (st : QueueState) (hinv : promiseConsistent st) (p : SentenceQueue)
    (h : (invalidateIfFilterChanged sf hf st).nextBatchPromise = some p) :
    p.script_filter = sf ∧ p.hsk_filter = hf := by
  rcases st with ⟨dbq, pr⟩
  cases dbq with
  | none =>
    obtain ⟨qq, hqq, _⟩ := hinv p (by simpa [invalidateIfFilterChanged] using h)
    cases hqq
  | some q =>
    by_cases hsig : q.script_filter ≠ sf ∨ q.hsk_filter ≠ hf
    · simp [invalidateIfFilterChanged, if_pos hsig] at h
    · rw [show invalidateIfFilterChanged sf hf ⟨some q, pr⟩ = ⟨some q, pr⟩ from
        by simp [invalidateIfFilterChanged, if_neg hsig]] at h
      obtain ⟨qq, hqq, hps, hph⟩ := hinv p h
      obtain rfl : q = qq := by simpa using hqq
      push_neg at hsig
      exact ⟨hps.trans hsig.1, hph.trans hsig.2⟩

theorem adoptOrGenerate_sig (gen : ScriptFilter → HskFilter → SentenceQueue)
    (sf : ScriptFilter) (hf : HskFilter) (st1 : QueueState)
    (hgen : ∀ s h, (gen s h).script_filter = s ∧ (gen s h).hsk_filter = h)
    (hq : ∀ q1, st1.dbQueue = some q1 →
      q1.script_filter = sf ∧ q1.hsk_filter = hf)
    (hp : ∀ p, st1.nextBatchPromise = some p →
      p.script_filter = sf ∧ p.hsk_filter = hf) :
    ((adoptOrGenerate gen sf hf st1).1.script_filter = sf
      ∧ (adoptOrGenerate gen sf hf st1).1.hsk_filter = hf)
    ∧ (∀ p, (adoptOrGenerate gen sf hf st1).2 = some p →
        p.script_filter = sf ∧ p.hsk_filter = hf) := by
  rcases st1 with ⟨dbq, pr⟩
  cases dbq with
  | some q =>
    by_cases hex : q.current_index ≥ q.sentences.length
    · cases pr with
      | some p =>
        rw [show adoptOrGenerate gen sf hf ⟨some q, some p⟩ = (p, none) from
          by simp [adoptOrGenerate, if_pos hex]]
        exact ⟨hp p rfl, fun p' h' => by cases h'⟩
      | none =>
        rw [show adoptOrGenerate gen sf hf ⟨some q, none⟩ = (gen sf hf, none)
          from by simp [adoptOrGenerate, if_pos hex]]
        exact ⟨hgen sf hf, fun p' h' => by cases h'⟩
    · rw [show adoptOrGenerate gen sf hf ⟨some q, pr⟩ = (q, pr) from
        by simp [adoptOrGenerate, if_neg hex]]
      exact ⟨hq q rfl, hp⟩
  | none =>
    cases pr with
    | some p =>
      rw [show adoptOrGenerate gen sf hf ⟨none, some p⟩ = (p, none) from rfl]
      exact ⟨hp p rfl, fun p' h' => by cases h'⟩
    | none =>
      rw [show adoptOrGenerate gen sf hf ⟨none, none⟩ = (gen sf hf, none)
        from rfl]
      exact ⟨hgen sf hf, fun p' h' => by cases h'⟩

theorem triggerPrefetch_sig (gen : ScriptFilter → HskFilter → SentenceQueue)
    (sf : ScriptFilter) (hf : HskFilter) (q2 : SentenceQueue)
    (p2 : Option SentenceQueue)
    (hgen : ∀ s h, (gen s h).script_filter = s ∧ (gen s h).hsk_filter = h)
    (hp : ∀ p, p2 = some p → p.script_filter = sf ∧ p.hsk_filter = hf) :
    ∀ p, triggerPrefetch gen sf hf q2 p2 = some p →
      p.script_filter = sf ∧ p.hsk_filter = hf := by
  intro p h
  unfold triggerPrefetch at h
  split at h
  · cases p2 with
    | none =>
      obtain rfl : gen sf hf = p := by simpa using h
      exact hgen sf hf
    | some p' =>
      obtain rfl : p' = p := by simpa using h
      exact hp p' rfl
  · exact hp p h

/-- C8: `getNextSentence` never adopts a prefetch computed under a stale
filter signature.  Given the cross-call invariant (the in-flight prefetch
matches the stored queue's signature) and that generation tags its result
with the requested filters: (1) the queue the call draws from and persists
always carries the requested signature; (2) the invariant is preserved; and
(3) whenever the stored queue's signature differs from the requested one,
both the stored queue and the old prefetch are discarded — the call draws
from a freshly generated batch and the resulting prefetch slot is either
empty or a fresh generation under the requested filters. -/
theorem getNextSentence_no_stale_adoption
    (gen : ScriptFilter → HskFilter → SentenceQueue) (sf : ScriptFilter)
    (hf : HskFilter) (st : QueueState)
    (hgen : ∀ s h, (gen s h).script_filter = s ∧ (gen s h).hsk_filter = h)
    (hinv : promiseConsistent st) :
    (∀ q', (getNextSentenceModel gen sf hf st).2.dbQueue = some q' →
      q'.script_filter = sf ∧ q'.hsk_filter = hf)
    ∧ promiseConsistent (getNextSentenceModel gen sf hf st).2
    ∧ (∀ q, st.dbQueue = some q →
        (q.script_filter ≠ sf ∨ q.hsk_filter ≠ hf) →
        (getNextSentenceModel gen sf hf st).2.dbQueue
          = some { gen sf hf with
              current_index := (gen sf hf).current_index + 1 }
        ∧ ((getNextSentenceModel gen sf hf st).2.nextBatchPromise = none
          ∨ (getNextSentenceModel gen sf hf st).2.nextBatchPromise
              = some (gen sf hf))) := by
  have hq1 := fun q1 h => invalidate_dbQueue_sig sf hf st q1 h
  have hadopt := adoptOrGenerate_sig gen sf hf
    (invalidateIfFilterChanged sf hf st) hgen
    (fun q1 h => ⟨(hq1 q1 h).1, (hq1 q1 h).2.1⟩)
    (invalidate_promise_sig sf hf st hinv)
  have htrig := triggerPrefetch_sig gen sf hf
    (adoptOrGenerate gen sf hf (invalidateIfFilterChanged sf hf st)).1
    (adoptOrGenerate gen sf hf (invalidateIfFilterChanged sf hf st)).2
    hgen hadopt.2
  refine ⟨?_, ?_, ?_⟩
  · intro q' hq'
    have : some { (adoptOrGenerate gen sf hf
        (invalidateIfFilterChanged sf hf st)).1 with
        current_index := (adoptOrGenerate gen sf hf
          (invalidateIfFilterChanged sf hf st)).1.current_index + 1 }
        = some q' := hq'
    obtain rfl := Option.some.inj this
    exact hadopt.1
  · intro p hpr
    refine ⟨{ (adoptOrGenerate gen sf hf
        (invalidateIfFilterChanged sf hf st)).1 with
        current_index := (adoptOrGenerate gen sf hf
          (invalidateIfFilterChanged sf hf st)).1.current_index + 1 }, rfl, ?_, ?_⟩
    · exact ((htrig p hpr).1).trans (hadopt.1.1).symm
    · exact ((htrig p hpr).2).trans (hadopt.1.2).symm
  · intro q hq hne
    have hst1 : invalidateIfFilterChanged sf hf st = ⟨none, none⟩ := by
      rcases st with ⟨dbq, pr⟩
      obtain rfl : dbq = some q := hq
      simp [invalidateIfFilterChanged, if_pos hne]
    have hqp : adoptOrGenerate gen sf hf (invalidateIfFilterChanged sf hf st)
        = (gen sf hf, none) := by
      rw [hst1]
      rfl
    constructor
    · have hdb : (getNextSentenceModel gen sf hf st).2.dbQueue
          = some { (adoptOrGenerate gen sf hf
              (invalidateIfFilterChanged sf hf st)).1 with
              current_index := (adoptOrGenerate gen sf hf
                (invalidateIfFilterChanged sf hf st)).1.current_index + 1 } := rfl
      rw [hdb, hqp]
    · have hpr : (getNextSentenceModel gen sf hf st).2.nextBatchPromise
          = triggerPrefetch gen sf hf
              (adoptOrGenerate gen sf hf (invalidateIfFilterChanged sf hf st)).1
              (adoptOrGenerate gen sf hf
                (invalidateIfFilterChanged sf hf st)).2 := rfl
      rw [hpr, hqp]
      unfold triggerPrefetch
      split
      · right; rfl
      · left; rfl

/-- Witness for `getNextSentence_no_stale_adoption` from the empty initial
state with a generator that tags its output with the requested filters. -/
theorem getNextSentence_no_stale_adoption_witness :
    (⟨1, [1, 2, 3], 1, 0, ScriptFilter.mixed, HskFilter.h1⟩
        : SentenceQueue).script_filter = ScriptFilter.mixed
    ∧ (⟨1, [1, 2, 3], 1, 0, ScriptFilter.mixed, HskFilter.h1⟩
        : SentenceQueue).hsk_filter = HskFilter.h1 := by
  have h := getNextSentence_no_stale_adoption
    (fun s h => ⟨1, [1, 2, 3], 0, 0, s, h⟩) ScriptFilter.mixed HskFilter.h1
    ⟨none, none⟩ (fun s h => ⟨rfl, rfl⟩) (fun p hp => nomatch hp)
  exact h.1 ⟨1, [1, 2, 3], 1, 0, ScriptFilter.mixed, HskFilter.h1⟩ rfl

end HanziFlow
